import Mathlib

/-!
Verification of the worldclock city reference database subsystem
(package geonames, file geonames.go).

Modelling conventions:
* Go strings are modelled as lists of characters (List Char); the Go
  byte-length of an ASCII string agrees with the list length.
* strings.ToLower is modelled by mapping Char.toLower over the list;
  strings.TrimSpace drops leading and trailing whitespace characters;
  strings.HasPrefix and strings.Contains are modelled by hasPrefixL and
  containsL below.
* Database.Search returns Option (List City): the value none models the
  Go runtime panic raised by the slice expression results[:maxResults]
  when maxResults is negative (that expression is only reached when
  len(results) > maxResults, so the bound can only be out of range by
  being negative).
* The background load is modelled as a state transition applyLoad on the
  Database value: the goroutine body of LoadAsync either installs the
  parsed cities and flips ready (success) or records the error (failure).
* File and network effects of the fetch step are modelled by an explicit
  world state (cache file presence, network outcome, archive contents)
  and an effect record counting network calls and cache writes.
-/

namespace Worldclock

/-- Whitespace characters removed by strings.TrimSpace (ASCII model). -/
def isSpaceChar (c : Char) : Bool :=
  c == ' ' || c == '\t' || c == '\n' || c == '\r' || c == '\x0b' || c == '\x0c'

/-- strings.TrimSpace: drop leading and trailing whitespace. -/
def trimSpace (s : List Char) : List Char :=
  ((s.dropWhile isSpaceChar).reverse.dropWhile isSpaceChar).reverse

/-- strings.ToLower: case-fold every character. -/
def toLowerL (s : List Char) : List Char := s.map Char.toLower

/-- strings.HasPrefix s p: p is an initial segment of s. -/
def hasPrefixL : List Char → List Char → Bool
  | _, [] => true
  | [], _ :: _ => false
  | a :: s, b :: p => a == b && hasPrefixL s p

/-- strings.Contains s p: p occurs as a contiguous substring of s. -/
def containsL : List Char → List Char → Bool
  | [], p => p.isEmpty
  | a :: s, p => hasPrefixL (a :: s) p || containsL s p

/-- City (geonames.go): one record of the GeoNames database. -/
structure City where
  name : List Char
  countryCode : List Char
  timezone : List Char
deriving DecidableEq, Repr

/-- Database (geonames.go): the catalog with its load-status fields. -/
structure Database where
  cities : List City
  ready : Bool
  err : Option String
deriving DecidableEq, Repr

/-- NewDatabase (geonames.go): fresh catalog, empty and not ready. -/
def NewDatabase : Database := { cities := [], ready := false, err := none }

/-- IsReady (geonames.go). -/
def Database.IsReady (db : Database) : Bool := db.ready

/-- GetError (geonames.go). -/
def Database.GetError (db : Database) : Option String := db.err

/-- The classification of a city as an exact match for the normalized
query q, as in the first branch of the scan loop of Search. -/
def isExactMatch (q : List Char) (c : City) : Bool :=
  toLowerL c.name == q

/-- The classification of a city into the second result bucket of Search:
not an exact match, and the case-folded name either starts with or
contains the normalized query q. -/
def isPartMatch (q : List Char) (c : City) : Bool :=
  !(toLowerL c.name == q) &&
    (hasPrefixL (toLowerL c.name) q || containsL (toLowerL c.name) q)

/-- The scan loop of Search (geonames.go lines 117 to 135): walks the
cities in catalog order, appending each to the exact or the second
bucket according to the if chain, and stops as soon as the combined
size of the two buckets reaches maxResults. -/
def searchLoop (q : List Char) (maxResults : Int) :
    List City → List City → List City → List City × List City
  | [], ex, pm => (ex, pm)
  | c :: rest, ex, pm =>
    let nameL := toLowerL c.name
    let acc :=
      if nameL == q then (ex ++ [c], pm)
      else if hasPrefixL nameL q then (ex, pm ++ [c])
      else if containsL nameL q then (ex, pm ++ [c])
      else (ex, pm)
    if (acc.1.length + acc.2.length : Int) ≥ maxResults then acc
    else searchLoop q maxResults rest acc.1 acc.2

/-- The final truncation of Search (geonames.go lines 139 to 142): the
Go code slices results[:maxResults] when len(results) > maxResults.
That slice expression is out of range, a runtime panic, exactly when
maxResults is negative; none models the panic. -/
def truncateResults (results : List City) (maxResults : Int) : Option (List City) :=
  if (results.length : Int) > maxResults then
    if maxResults < 0 then none
    else some (results.take maxResults.toNat)
  else some results

/-- Search (geonames.go lines 101 to 144). Returns none exactly when the
Go code panics in the final slice truncation. -/
def Database.Search (db : Database) (query : List Char) (maxResults : Int) :
    Option (List City) :=
  if !db.ready then some []
  else if (toLowerL (trimSpace query)).length < 3 then some []
  else
    truncateResults
      ((searchLoop (toLowerL (trimSpace query)) maxResults db.cities [] []).1 ++
       (searchLoop (toLowerL (trimSpace query)) maxResults db.cities [] []).2)
      maxResults

/-- strings.Split line on a single tab character: the list of fields.
Always returns at least one field. -/
def splitTab : List Char → List (List Char)
  | [] => [[]]
  | c :: rest =>
    match splitTab rest with
    | [] => [[]]
    | f :: fs => if c == '\t' then [] :: f :: fs else (c :: f) :: fs

/-- The per-line body of the scan loop of parseFile (geonames.go lines
249 to 270): split on tabs, skip the line if it has fewer than 18
fields, read name, country code and timezone from indices 1, 8 and 17,
and skip the line if the timezone field is empty. -/
def parseLine (line : List Char) : Option City :=
  let fields := splitTab line
  if fields.length < 18 then none
  else
    let name := fields.getD 1 []
    let countryCode := fields.getD 8 []
    let timezone := fields.getD 17 []
    if timezone.isEmpty then none
    else some { name := name, countryCode := countryCode, timezone := timezone }

/-- The input stream seen by parseFile through the bufio scanner: the
lines successfully scanned, followed by the read error reported by
scanner.Err if one occurred. -/
structure InputStream where
  lines : List (List Char)
  readErr : Option String
deriving DecidableEq, Repr

/-- parseFile (geonames.go lines 233 to 277): accumulate one City per
accepted line in input order, then fail wholesale if the scanner
reported a read error. -/
def parseFile (s : InputStream) : Except String (List City) :=
  let cities := s.lines.foldl
    (fun acc line =>
      match parseLine line with
      | some c => acc ++ [c]
      | none => acc) []
  match s.readErr with
  | some e => Except.error e
  | none => Except.ok cities

/-- Follows the wording of the spec for the parser contract: a line
contributes a record exactly when it has at least 18 tab-separated
fields and a non-empty timezone field, the record taking name, country
code and timezone from field positions 1, 8 and 17. Used to compare the
source-derived parser against the claim. -/
def specLineRecord (line : List Char) : Option City :=
  let fields := splitTab line
  if 18 ≤ fields.length ∧ fields.getD 17 [] ≠ [] then
    some { name := fields.getD 1 [], countryCode := fields.getD 8 [],
           timezone := fields.getD 17 [] }
  else none

/-- Outcome of the network download attempted by downloadFile. -/
inductive NetOutcome where
  | ok
  | netFail (e : String)
  | badStatus (status : String)
deriving DecidableEq, Repr

/-- The environment of one load attempt: whether the cache file already
exists at the cache path, how the network behaves, and whether the
downloaded archive contains the expected entry. -/
structure WorldState where
  cacheFileExists : Bool
  net : NetOutcome
  archiveHasEntry : Bool
deriving DecidableEq, Repr

/-- Observable effects of the fetch step: how many network requests were
made, how many files were written into the cache directory, and the
result. -/
structure FetchEffects where
  networkCalls : Nat
  cacheWrites : Nat
  result : Except String Unit
deriving Repr

/-- downloadAndExtract (geonames.go lines 158 to 178): one HTTP GET; on
network failure or a non-OK status nothing is written; on success the
temporary zip is written and, if the archive holds the expected entry,
the extracted target file as well. -/
def downloadAndExtract (w : WorldState) : FetchEffects :=
  match w.net with
  | NetOutcome.netFail e =>
    { networkCalls := 1, cacheWrites := 0,
      result := Except.error ("failed to download file: " ++ e) }
  | NetOutcome.badStatus st =>
    { networkCalls := 1, cacheWrites := 0,
      result := Except.error ("failed to download file: bad status: " ++ st) }
  | NetOutcome.ok =>
    if w.archiveHasEntry then
      { networkCalls := 1, cacheWrites := 2, result := Except.ok () }
    else
      { networkCalls := 1, cacheWrites := 1,
        result := Except.error "failed to extract file: file not found in zip archive" }

/-- The cache check of load (geonames.go lines 63 to 69): if the cache
file exists the fetch step does nothing and succeeds; only on a miss is
downloadAndExtract run. -/
def ensureCacheFile (w : WorldState) : FetchEffects :=
  if w.cacheFileExists then
    { networkCalls := 0, cacheWrites := 0, result := Except.ok () }
  else downloadAndExtract w

/-- Outcome of one run of load (geonames.go lines 57 to 83). -/
inductive LoadResult where
  | success (cities : List City)
  | failure (e : String)
deriving DecidableEq, Repr

/-- load (geonames.go lines 57 to 83): fetch, then parse; any failure
aborts with a wrapped error, and only full success yields the cities. -/
def runLoad (w : WorldState) (s : InputStream) : LoadResult :=
  match (ensureCacheFile w).result with
  | Except.error e =>
    LoadResult.failure ("failed to download GeoNames data: " ++ e)
  | Except.ok _ =>
    match parseFile s with
    | Except.error e =>
      LoadResult.failure ("failed to parse GeoNames data: " ++ e)
    | Except.ok cities => LoadResult.success cities

/-- The state transition performed on the Database by the goroutine body
of LoadAsync (geonames.go lines 46 to 54 and 76 to 79): on success the
cities are installed and ready is set; on failure the error is
recorded and cities and ready are untouched. -/
def applyLoad (db : Database) : LoadResult → Database
  | LoadResult.success cities => { db with cities := cities, ready := true }
  | LoadResult.failure e => { db with err := some e }

/-- Modelled from the spec: the repository has no findBestForTimezone
operation and its City record keeps no population field, so the record
type for this optional auxiliary query is taken from the spec, which
adds the population/weight figure of the dataset. -/
structure CityRecordW where
  name : List Char
  countryCode : List Char
  timezone : List Char
  population : Nat
deriving DecidableEq, Repr

/-- Modelled from the spec: a catalog as seen by the optional
findBestForTimezone query, records plus readiness. -/
structure CatalogW where
  records : List CityRecordW
  ready : Bool
deriving DecidableEq, Repr

/-- One step of the best-record selection: keep the record with the
larger population, the earlier one on ties. -/
def pickBetter (best : Option CityRecordW) (r : CityRecordW) : Option CityRecordW :=
  match best with
  | none => some r
  | some b => if b.population < r.population then some r else some b

/-- Modelled from the spec: findBestForTimezone is absent from the
source; following the spec wording it returns, among all records whose
timezone field equals the given identifier exactly, the one judged most
significant by the population field, and none when no record matches or
the catalog is not ready. -/
def findBestForTimezone (cat : CatalogW) (tzID : List Char) : Option CityRecordW :=
  if !cat.ready then none
  else (cat.records.filter (fun r => r.timezone == tzID)).foldl pickBetter none

/-- Combined number of matches (exact plus second bucket) among cs. -/
def matchCount (q : List Char) (cs : List City) : Nat :=
  (cs.filter (isExactMatch q)).length + (cs.filter (isPartMatch q)).length

theorem exact_not_part (q : List Char) (c : City) (h : isExactMatch q c = true) :
    isPartMatch q c = false := by
  simp only [isExactMatch, beq_iff_eq] at h
  simp [isPartMatch, h]

theorem matchCount_single_le (q : List Char) (c : City) : matchCount q [c] ≤ 1 := by
  by_cases hE : isExactMatch q c
  · have hP := exact_not_part q c hE
    simp [matchCount, List.filter_cons, hE, hP]
  · by_cases hP : isPartMatch q c <;>
      simp [matchCount, List.filter_cons, hE, hP]

theorem matchCount_cons_take (q : List Char) (c : City) (rest : List City) (j : Nat) :
    matchCount q ((c :: rest).take (j + 1)) =
      matchCount q [c] + matchCount q (rest.take j) := by
  by_cases hE : isExactMatch q c <;> by_cases hP : isPartMatch q c <;>
    simp [matchCount, List.take_succ_cons, List.filter_cons, hE, hP] <;> omega

theorem searchLoop_cons (q : List Char) (m : Int) (c : City) (rest ex pm : List City) :
    searchLoop q m (c :: rest) ex pm =
      if ((ex ++ [c].filter (isExactMatch q)).length +
          (pm ++ [c].filter (isPartMatch q)).length : Int) ≥ m then
        (ex ++ [c].filter (isExactMatch q), pm ++ [c].filter (isPartMatch q))
      else searchLoop q m rest (ex ++ [c].filter (isExactMatch q))
        (pm ++ [c].filter (isPartMatch q)) := by
  by_cases h1 : toLowerL c.name == q
  · have hE : isExactMatch q c = true := by simpa [isExactMatch] using h1
    have hP := exact_not_part q c hE
    simp [searchLoop, h1, List.filter_cons, hE, hP]
  · have hE : isExactMatch q c = false := by simpa [isExactMatch] using h1
    by_cases h2 : hasPrefixL (toLowerL c.name) q
    · have hP : isPartMatch q c = true := by simp [isPartMatch, h1, h2]
      simp [searchLoop, h1, h2, List.filter_cons, hE, hP]
    · by_cases h3 : containsL (toLowerL c.name) q
      · have hP : isPartMatch q c = true := by simp [isPartMatch, h1, h3]
        simp [searchLoop, h1, h2, h3, List.filter_cons, hE, hP]
      · have hP : isPartMatch q c = false := by simp [isPartMatch, h1, h2, h3]
        simp [searchLoop, h1, h2, h3, List.filter_cons, hE, hP]

theorem searchLoop_spec (q : List Char) (m : Int) (cs : List City) :
    ∀ ex pm : List City, ∃ n,
      n ≤ cs.length ∧
      searchLoop q m cs ex pm =
        (ex ++ (cs.take n).filter (isExactMatch q),
         pm ++ (cs.take n).filter (isPartMatch q)) ∧
      (n = cs.length ∨
        ((ex.length + pm.length + matchCount q (cs.take n) : Int) ≥ m)) ∧
      (∀ k, 0 < k → k < n →
        ((ex.length + pm.length + matchCount q (cs.take k) : Int) < m)) := by
  induction cs with
  | nil =>
    intro ex pm
    exact ⟨0, by simp, by simp [searchLoop], Or.inl rfl, by omega⟩
  | cons c rest ih =>
    intro ex pm
    rw [searchLoop_cons]
    by_cases hb : ((ex ++ [c].filter (isExactMatch q)).length +
        (pm ++ [c].filter (isPartMatch q)).length : Int) ≥ m
    · refine ⟨1, by simp, ?_, Or.inr ?_, ?_⟩
      · rw [if_pos hb]
        rfl
      · have : (c :: rest).take 1 = [c] := rfl
        rw [this]
        simp only [matchCount]
        simp at hb ⊢
        omega
      · intro k hk0 hk1; omega
    · obtain ⟨n, hn, heq, hstop, hmin⟩ :=
        ih (ex ++ [c].filter (isExactMatch q)) (pm ++ [c].filter (isPartMatch q))
      rw [if_neg hb]
      have hsingle : (c :: rest).take 1 = [c] := rfl
      refine ⟨n + 1, by simpa using Nat.succ_le_succ hn, ?_, ?_, ?_⟩
      · rw [heq]
        have h1 : (c :: rest).take (n + 1) = [c] ++ rest.take n := by
          simp [List.take_succ_cons]
        rw [h1, List.filter_append, List.filter_append, List.append_assoc,
          List.append_assoc]
      · rcases hstop with h | h
        · exact Or.inl (by simp [h])
        · refine Or.inr ?_
          rw [matchCount_cons_take]
          have hc : matchCount q [c] =
              ([c].filter (isExactMatch q)).length + ([c].filter (isPartMatch q)).length :=
            rfl
          simp only [List.length_append] at h
          omega
      · intro k hk0 hkn
        match k, hk0 with
        | 1, _ =>
          rw [hsingle]
          have hc : matchCount q [c] =
              ([c].filter (isExactMatch q)).length + ([c].filter (isPartMatch q)).length :=
            rfl
          simp only [List.length_append] at hb
          push_neg at hb
          omega
        | (j + 2), _ =>
          have hj := hmin (j + 1) (by omega) (by omega)
          rw [matchCount_cons_take]
          have hc : matchCount q [c] =
              ([c].filter (isExactMatch q)).length + ([c].filter (isPartMatch q)).length :=
            rfl
          simp only [List.length_append] at hj
          omega

theorem searchLoop_total_le (q : List Char) (m : Int) (cs : List City) :
    ∀ ex pm : List City, (ex.length + pm.length : Int) < m →
      (((searchLoop q m cs ex pm).1.length +
        (searchLoop q m cs ex pm).2.length : Int)) ≤ m := by
  induction cs with
  | nil => intro ex pm h; simp [searchLoop]; omega
  | cons c rest ih =>
    intro ex pm h
    have hone := matchCount_single_le q c
    have hc : matchCount q [c] =
        ([c].filter (isExactMatch q)).length + ([c].filter (isPartMatch q)).length := rfl
    rw [searchLoop_cons]
    by_cases hb : ((ex ++ [c].filter (isExactMatch q)).length +
        (pm ++ [c].filter (isPartMatch q)).length : Int) ≥ m
    · rw [if_pos hb]
      simp only [List.length_append] at *
      omega
    · rw [if_neg hb]
      refine ih _ _ ?_
      simp only [List.length_append] at hb ⊢
      push_neg at hb
      omega

theorem truncateResults_of_le (results : List City) (m : Int)
    (h : (results.length : Int) ≤ m) : truncateResults results m = some results := by
  unfold truncateResults
  rw [if_neg (by omega)]

theorem truncateResults_of_nonneg (results : List City) (m : Int) (h : 0 ≤ m) :
    truncateResults results m = some (results.take m.toNat) := by
  unfold truncateResults
  by_cases hgt : (results.length : Int) > m
  · rw [if_pos hgt, if_neg (by omega)]
  · rw [if_neg hgt]
    have hlen : results.length ≤ m.toNat := by omega
    rw [List.take_of_length_le hlen]

theorem Search_not_ready (db : Database) (query : List Char) (m : Int)
    (h : db.ready = false) : db.Search query m = some [] := by
  simp [Database.Search, h]

theorem Search_short (db : Database) (query : List Char) (m : Int)
    (h : (toLowerL (trimSpace query)).length < 3) : db.Search query m = some [] := by
  by_cases hr : db.ready
  · simp [Database.Search, hr, h]
  · simp [Database.Search, hr]

theorem Search_ready_long (db : Database) (query : List Char) (m : Int)
    (hr : db.ready = true) (hq : 3 ≤ (toLowerL (trimSpace query)).length) :
    db.Search query m =
      truncateResults
        ((searchLoop (toLowerL (trimSpace query)) m db.cities [] []).1 ++
         (searchLoop (toLowerL (trimSpace query)) m db.cities [] []).2) m := by
  simp [Database.Search, hr, Nat.not_lt.mpr hq]

/-- The two example records of the testable properties of the spec. -/
def exBerlin : City :=
  { name := "Berlin".toList, countryCode := "DE".toList, timezone := "Europe/Berlin".toList }

/-- The second example record of the testable properties of the spec. -/
def exBerlinetta : City :=
  { name := "Berlinetta".toList, countryCode := "US".toList,
    timezone := "America/Denver".toList }

/-- A ready catalog holding the two example records. -/
def exDb : Database := { cities := [exBerlin, exBerlinetta], ready := true, err := none }

/-- A second ready catalog, holding only the first example record. -/
def exDbOne : Database := { cities := [exBerlin], ready := true, err := none }

/-- C1: for every ready catalog, every query whose normalized form has at
least 3 characters, and every positive limit, Search returns exactly the
exact matches of the scanned leading portion of the catalog, in catalog order, followed
by the second-bucket matches (name starts with or contains the query,
the two not distinguished from each other), in catalog order; a record
matching none of the classes never appears. -/
theorem C1_search_result_ordering (db : Database) (query : List Char) (lim : Int)
    (hr : db.ready = true) (hq : 3 ≤ (toLowerL (trimSpace query)).length)
    (hl : 0 < lim) :
    ∃ n, n ≤ db.cities.length ∧
      db.Search query lim =
        some ((db.cities.take n).filter (isExactMatch (toLowerL (trimSpace query))) ++
              (db.cities.take n).filter (isPartMatch (toLowerL (trimSpace query)))) := by
  obtain ⟨n, hn, heq, _, _⟩ :=
    searchLoop_spec (toLowerL (trimSpace query)) lim db.cities [] []
  have hle := searchLoop_total_le (toLowerL (trimSpace query)) lim db.cities [] []
    (by simp; omega)
  rw [heq] at hle
  simp only [List.nil_append] at heq hle
  refine ⟨n, hn, ?_⟩
  rw [Search_ready_long db query lim hr hq, heq]
  exact truncateResults_of_le _ _ (by simpa using hle)

/-- Witness for C1 at the spec example: catalog [Berlin, Berlinetta],
query berlin, limit 10; both records are returned, Berlin first. -/
theorem C1_search_result_ordering_witness :
    exDb.Search "berlin".toList 10 = some [exBerlin, exBerlinetta] := by
  obtain ⟨n, hn, h⟩ :=
    C1_search_result_ordering exDb ("berlin".toList) 10 rfl (by decide) (by decide)
  have hn2 : n ≤ 2 := by simpa [exDb] using hn
  interval_cases n <;> revert h <;> decide

/-- C3: for every query whose normalized form (case-folded, trimmed) has
fewer than 3 characters, every limit, and every catalog state (ready or
not), Search returns an empty sequence. -/
theorem C3_short_query_empty (db : Database) (query : List Char) (lim : Int)
    (h : (toLowerL (trimSpace query)).length < 3) :
    db.Search query lim = some [] :=
  Search_short db query lim h

/-- Witness for C3: a ready catalog, a query that trims and folds to a
single character, and an arbitrary negative limit still yield empty. -/
theorem C3_short_query_empty_witness :
    exDb.Search "  B ".toList (-3) = some [] :=
  C3_short_query_empty exDb ("  B ".toList) (-3) (by decide)

/-- C2 counterexample: the claim quantifies over every limit, but at
limit -1 on a ready catalog with a matching query the Go code reaches
results[:maxResults] with a negative bound and panics (modelled by
none); no sequence of at most limit entries is returned. -/
theorem C2_neg_limit_counterexample :
    exDb.Search "berlin".toList (-1) = none := by decide

/-- C2 amended (restricted to nonnegative limits): Search scans in
catalog order, stops as soon as the combined exact-plus-second-bucket
count reaches the limit (no earlier checked point had reached it), and
returns the first limit entries of the exact-then-second-bucket
sequence of the scanned leading portion, hence at most limit entries with exact
matches taking priority in the truncation. -/
theorem C2_search_limit (db : Database) (query : List Char) (lim : Int)
    (hlim : 0 ≤ lim) :
    (∀ l, db.Search query lim = some l → (l.length : Int) ≤ lim) ∧
    (db.ready = true → 3 ≤ (toLowerL (trimSpace query)).length →
      ∃ n, n ≤ db.cities.length ∧
        db.Search query lim =
          some (((db.cities.take n).filter (isExactMatch (toLowerL (trimSpace query))) ++
                 (db.cities.take n).filter (isPartMatch (toLowerL (trimSpace query)))).take
                lim.toNat) ∧
        (n = db.cities.length ∨
          lim ≤ (matchCount (toLowerL (trimSpace query)) (db.cities.take n) : Int)) ∧
        (∀ k, 0 < k → k < n →
          (matchCount (toLowerL (trimSpace query)) (db.cities.take k) : Int) < lim)) := by
  constructor
  · intro l hl
    by_cases hr : db.ready
    · by_cases hq : (toLowerL (trimSpace query)).length < 3
      · rw [Search_short db query lim hq] at hl
        injection hl with hl
        simp [← hl]
        exact hlim
      · rw [Search_ready_long db query lim hr (Nat.not_lt.mp hq),
          truncateResults_of_nonneg _ _ hlim] at hl
        injection hl with hl
        have := List.length_take_le lim.toNat
          ((searchLoop (toLowerL (trimSpace query)) lim db.cities [] []).1 ++
           (searchLoop (toLowerL (trimSpace query)) lim db.cities [] []).2)
        rw [← hl]
        omega
    · rw [Search_not_ready db query lim (by simpa using hr)] at hl
      injection hl with hl
      simp [← hl]
      exact hlim
  · intro hr hq
    obtain ⟨n, hn, heq, hstop, hmin⟩ :=
      searchLoop_spec (toLowerL (trimSpace query)) lim db.cities [] []
    simp only [List.length_nil, Nat.cast_zero, zero_add, List.nil_append] at heq hstop hmin
    refine ⟨n, hn, ?_, ?_, ?_⟩
    · rw [Search_ready_long db query lim hr hq, heq,
        truncateResults_of_nonneg _ _ hlim]
    · rcases hstop with h | h
      · exact Or.inl h
      · exact Or.inr (by omega)
    · intro k hk0 hkn
      have := hmin k hk0 hkn
      omega

/-- Witness for C2 amended at the spec example: limit 1 returns only the
exact match Berlin, and its length is within the limit. -/
theorem C2_search_limit_witness :
    exDb.Search "berlin".toList 1 = some [exBerlin] ∧
    (([exBerlin] : List City).length : Int) ≤ 1 := by
  have h := (C2_search_limit exDb ("berlin".toList) 1 (by decide)).1 [exBerlin] (by decide)
  exact ⟨by decide, h⟩

/-- C8 counterexample: the claim quantifies over every limit value, but
with a ready catalog, a valid query and limit -2 the Go code panics in
the slice truncation (modelled by none), so Search does not return
normally for every limit. -/
theorem C8_panic_counterexample :
    exDbOne.Search "ber".toList (-2) = none := by decide

/-- C8 amended (panic freedom restricted to nonnegative limits): for
every query, catalog state and nonnegative limit Search returns a value,
and the bad-query cases (catalog not ready, or normalized query shorter
than 3 characters) return the empty sequence for every limit, silently,
never an error. -/
theorem C8_search_total (db : Database) (query : List Char) (lim : Int) :
    (0 ≤ lim → ∃ l, db.Search query lim = some l) ∧
    (db.ready = false → db.Search query lim = some []) ∧
    ((toLowerL (trimSpace query)).length < 3 → db.Search query lim = some []) := by
  refine ⟨?_, fun h => Search_not_ready db query lim h,
    fun h => Search_short db query lim h⟩
  intro hlim
  by_cases hr : db.ready
  · by_cases hq : (toLowerL (trimSpace query)).length < 3
    · exact ⟨[], Search_short db query lim hq⟩
    · refine ⟨((searchLoop (toLowerL (trimSpace query)) lim db.cities [] []).1 ++
        (searchLoop (toLowerL (trimSpace query)) lim db.cities [] []).2).take lim.toNat, ?_⟩
      rw [Search_ready_long db query lim hr (Nat.not_lt.mp hq),
        truncateResults_of_nonneg _ _ hlim]
  · exact ⟨[], Search_not_ready db query lim (by simpa using hr)⟩

/-- Witness for C8 amended: a ready catalog, a query that normalizes to
2 characters, and a negative limit still return the empty sequence. -/
theorem C8_search_total_witness :
    exDbOne.Search "  xy ".toList (-9) = some [] :=
  (C8_search_total exDbOne ("  xy ".toList) (-9)).2.2 (by decide)

theorem hasPrefixL_self (s : List Char) : hasPrefixL s s = true := by
  induction s with
  | nil => rfl
  | cons a t ih => simp [hasPrefixL, ih]

theorem containsL_of_hasPrefixL (s p : List Char) (h : hasPrefixL s p = true) :
    containsL s p = true := by
  cases s with
  | nil =>
    cases p with
    | nil => rfl
    | cons b t => simp [hasPrefixL] at h
  | cons a t => simp [containsL, h]

theorem match_contains (q : List Char) (c : City)
    (h : isExactMatch q c = true ∨ isPartMatch q c = true) :
    containsL (toLowerL c.name) q = true := by
  rcases h with h | h
  · simp only [isExactMatch, beq_iff_eq] at h
    rw [h]
    exact containsL_of_hasPrefixL q q (hasPrefixL_self q)
  · simp only [isPartMatch, Bool.and_eq_true, Bool.or_eq_true] at h
    rcases h.2 with h2 | h2
    · exact containsL_of_hasPrefixL _ _ h2
    · exact h2

theorem Search_some_shape (db : Database) (query : List Char) (lim : Int)
    (l : List City) (h : db.Search query lim = some l) :
    l = [] ∨ ∃ n k,
      l = (((db.cities.take n).filter (isExactMatch (toLowerL (trimSpace query))) ++
            (db.cities.take n).filter (isPartMatch (toLowerL (trimSpace query)))).take k) := by
  by_cases hr : db.ready
  · by_cases hq : (toLowerL (trimSpace query)).length < 3
    · rw [Search_short db query lim hq] at h
      injection h with h
      exact Or.inl h.symm
    · right
      obtain ⟨n, hn, heq, _, _⟩ :=
        searchLoop_spec (toLowerL (trimSpace query)) lim db.cities [] []
      rw [Search_ready_long db query lim hr (Nat.not_lt.mp hq), heq] at h
      simp only [List.nil_append] at h
      unfold truncateResults at h
      split at h
      · split at h
        · exact absurd h (by simp)
        · injection h with h
          exact ⟨n, lim.toNat, h.symm⟩
      · injection h with h
        refine ⟨n, l.length, ?_⟩
        rw [← h, List.take_length]
  · rw [Search_not_ready db query lim (by simpa using hr)] at h
    injection h with h
    exact Or.inl h.symm

/-- C10: the exact and second-bucket classifications are mutually
exclusive (a name that both starts with and contains the query is
classified once), each catalog entry contributes at most one entry to
the result (result multiplicities are bounded by catalog
multiplicities), and every returned record has a case-folded name that
contains the normalized query as a substring. -/
theorem C10_each_record_once (db : Database) (query : List Char) (lim : Int)
    (l : List City) (h : db.Search query lim = some l) :
    (∀ c, isExactMatch (toLowerL (trimSpace query)) c = true →
      isPartMatch (toLowerL (trimSpace query)) c = false) ∧
    (∀ c, l.count c ≤ db.cities.count c) ∧
    (∀ c, c ∈ l → containsL (toLowerL c.name) (toLowerL (trimSpace query)) = true) := by
  have hshape := Search_some_shape db query lim l h
  refine ⟨fun c hc => exact_not_part _ c hc, ?_, ?_⟩
  · intro c
    rcases hshape with hl | ⟨n, k, hl⟩
    · simp [hl]
    · subst hl
      have htake := ((List.take_sublist k _).count_le c :
        (((db.cities.take n).filter (isExactMatch (toLowerL (trimSpace query))) ++
          (db.cities.take n).filter (isPartMatch (toLowerL (trimSpace query)))).take k).count c ≤
        ((db.cities.take n).filter (isExactMatch (toLowerL (trimSpace query))) ++
         (db.cities.take n).filter (isPartMatch (toLowerL (trimSpace query)))).count c)
      rw [List.count_append] at htake
      have hcity := (List.take_sublist n db.cities).count_le c
      by_cases hE : isExactMatch (toLowerL (trimSpace query)) c = true
      · have hP := exact_not_part _ c hE
        have hzero : ((db.cities.take n).filter
            (isPartMatch (toLowerL (trimSpace query)))).count c = 0 := by
          rw [List.count_eq_zero]
          intro hmem
          rw [List.mem_filter] at hmem
          rw [hmem.2] at hP
          cases hP
        have hfil := (List.filter_sublist (l := db.cities.take n)
          (p := isExactMatch (toLowerL (trimSpace query)))).count_le c
        omega
      · have hzero : ((db.cities.take n).filter
            (isExactMatch (toLowerL (trimSpace query)))).count c = 0 := by
          rw [List.count_eq_zero]
          intro hmem
          rw [List.mem_filter] at hmem
          exact hE hmem.2
        have hfil := (List.filter_sublist (l := db.cities.take n)
          (p := isPartMatch (toLowerL (trimSpace query)))).count_le c
        omega
  · intro c hc
    rcases hshape with hl | ⟨n, k, hl⟩
    · rw [hl] at hc
      exact absurd hc (List.not_mem_nil c)
    · subst hl
      have hmem := List.mem_of_mem_take hc
      rw [List.mem_append] at hmem
      rcases hmem with hm | hm
    <;> rw [List.mem_filter] at hm
      · exact match_contains _ c (Or.inl hm.2)
      · exact match_contains _ c (Or.inr hm.2)

/-- Witness for C10 at the spec example with limit 1: Berlin appears at
most as often as in the catalog and its folded name contains the
query. -/
theorem C10_each_record_once_witness :
    ([exBerlin] : List City).count exBerlin ≤ exDb.cities.count exBerlin ∧
    containsL (toLowerL exBerlin.name) (toLowerL (trimSpace "berlin".toList)) = true := by
  have h := C10_each_record_once exDb ("berlin".toList) 1 [exBerlin] (by decide)
  exact ⟨h.2.1 exBerlin, h.2.2 exBerlin (by simp)⟩

/-- C4: states of one LoadAsync attempt: before termination the fresh
database has ready false, no error, and every Search returns empty;
after termination exactly one of ready or a recorded error holds; and a
terminated state never reverts (ready is never cleared by a load step,
nor is a recorded error). -/
theorem C4_load_lifecycle :
    (NewDatabase.ready = false ∧ NewDatabase.err = none ∧
      ∀ (q : List Char) (lim : Int), NewDatabase.Search q lim = some []) ∧
    (∀ r : LoadResult,
      ((applyLoad NewDatabase r).ready = true ∧ (applyLoad NewDatabase r).err = none) ∨
      ((applyLoad NewDatabase r).ready = false ∧ (applyLoad NewDatabase r).err ≠ none)) ∧
    (∀ (db : Database) (r : LoadResult), db.ready = true →
      (applyLoad db r).ready = true) ∧
    (∀ (db : Database) (r : LoadResult), db.err ≠ none →
      (applyLoad db r).err ≠ none) := by
  refine ⟨⟨rfl, rfl, fun q lim => Search_not_ready _ q lim rfl⟩, ?_, ?_, ?_⟩
  · intro r
    cases r with
    | success cities => exact Or.inl ⟨rfl, rfl⟩
    | failure e => exact Or.inr ⟨rfl, by simp [applyLoad, NewDatabase]⟩
  · intro db r h
    cases r with
    | success cities => rfl
    | failure e => simpa [applyLoad] using h
  · intro db r h
    cases r with
    | success cities => simpa [applyLoad] using h
    | failure e => simp [applyLoad]

/-- Witness for C4: a successful load keeps ready set, and a failure
never erases a recorded error. -/
theorem C4_load_lifecycle_witness :
    (applyLoad { cities := [], ready := true, err := none }
      (LoadResult.failure "boom")).ready = true ∧
    (applyLoad { cities := [], ready := false, err := some "boom" }
      (LoadResult.success [exBerlin])).err ≠ none := by
  refine ⟨C4_load_lifecycle.2.2.1 _ (LoadResult.failure "boom") rfl, ?_⟩
  exact C4_load_lifecycle.2.2.2 _ (LoadResult.success [exBerlin]) (by simp)

theorem foldl_append_filterMap (f : List Char → Option City) (lines : List (List Char)) :
    ∀ acc : List City,
      lines.foldl (fun acc line =>
        match f line with
        | some c => acc ++ [c]
        | none => acc) acc = acc ++ lines.filterMap f := by
  induction lines with
  | nil => intro acc; simp
  | cons l t ih =>
    intro acc
    cases hf : f l with
    | some c => simp [hf, ih, List.filterMap_cons]
    | none => simp [hf, ih, List.filterMap_cons]

theorem parseLine_eq_spec (line : List Char) : parseLine line = specLineRecord line := by
  unfold parseLine specLineRecord
  by_cases h1 : (splitTab line).length < 18
  · rw [if_pos h1, if_neg]
    intro hc
    omega
  · rw [if_neg h1]
    by_cases h2 : ((splitTab line).getD 17 []).isEmpty
    · rw [if_pos h2, if_neg]
      intro hc
      rw [List.isEmpty_iff] at h2
      exact hc.2 h2
    · rw [if_neg h2, if_pos]
      refine ⟨by omega, ?_⟩
      rw [List.isEmpty_iff] at h2
      exact h2

/-- C5: with no read error, the parser yields exactly one City record
per line having at least 18 tab-separated fields and a non-empty
timezone field, taking name, country code and timezone from field
positions 1, 8 and 17, in input-line order; every other line is skipped
without error. -/
theorem C5_parser_line_selection (s : InputStream) (h : s.readErr = none) :
    parseFile s = Except.ok (s.lines.filterMap specLineRecord) := by
  unfold parseFile
  rw [h, foldl_append_filterMap parseLine s.lines [],
    show parseLine = specLineRecord from funext parseLine_eq_spec]
  rfl

/-- A three-line example stream: one well-formed row, one row with too
few fields, one row with 18 fields but an empty timezone. -/
def exStream : InputStream :=
  { lines :=
      ["0\tBerlin\ta\tb\tc\td\te\tf\tDE\tg\th\ti\tj\tk\tl\tm\tn\tEurope/Berlin".toList,
       "short\tline".toList,
       "0\tNoTz\ta\tb\tc\td\te\tf\tUS\tg\th\ti\tj\tk\tl\tm\tn\t".toList],
    readErr := none }

/-- Witness for C5: only the well-formed row survives, as the Berlin
record. -/
theorem C5_parser_line_selection_witness :
    parseFile exStream = Except.ok [exBerlin] := by
  rw [C5_parser_line_selection exStream rfl]
  rfl

/-- An input stream that ends in a simulated read failure. -/
def exBadStream : InputStream := { lines := [], readErr := some "read failure" }

/-- A world in which the cache file is present and everything works. -/
def exOkW : WorldState :=
  { cacheFileExists := true, net := NetOutcome.ok, archiveHasEntry := true }

/-- A world in which the cache is absent and the network is down. -/
def exMissW : WorldState :=
  { cacheFileExists := false, net := NetOutcome.netFail "timeout",
    archiveHasEntry := true }

/-- C6: a read error aborts parsing with an error, installing no
incomplete record sequence; a failed load leaves ready false, the error captured and the
records unchanged (empty); and records are installed with ready flipped
only when fetch and parse both fully succeeded. -/
theorem C6_failure_installs_nothing :
    (∀ (s : InputStream) (e : String), s.readErr = some e →
      parseFile s = Except.error e) ∧
    (∀ e : String, applyLoad NewDatabase (LoadResult.failure e) =
      { cities := [], ready := false, err := some e }) ∧
    (∀ (w : WorldState) (s : InputStream),
      (applyLoad NewDatabase (runLoad w s)).ready = true →
      (ensureCacheFile w).result = Except.ok () ∧
      parseFile s = Except.ok ((applyLoad NewDatabase (runLoad w s)).cities)) := by
  refine ⟨?_, fun e => rfl, ?_⟩
  · intro s e h
    unfold parseFile
    rw [h]
  · intro w s h
    unfold runLoad at h ⊢
    cases hc : (ensureCacheFile w).result with
    | error e =>
      rw [hc] at h
      simp [applyLoad, NewDatabase] at h
    | ok u =>
      cases hp : parseFile s with
      | error e =>
        rw [hc, hp] at h
        simp [applyLoad, NewDatabase] at h
      | ok cities =>
        exact ⟨rfl, rfl⟩

/-- Witness for C6: the failing stream yields the captured error; a
failed load leaves the fresh database empty, not ready, with the error
recorded; a fully successful load from a cache hit installs the parsed
records. -/
theorem C6_failure_installs_nothing_witness :
    parseFile exBadStream = Except.error "read failure" ∧
    applyLoad NewDatabase (LoadResult.failure "boom") =
      { cities := [], ready := false, err := some "boom" } ∧
    (ensureCacheFile exOkW).result = Except.ok () ∧
    parseFile exStream =
      Except.ok ((applyLoad NewDatabase (runLoad exOkW exStream)).cities) := by
  refine ⟨C6_failure_installs_nothing.1 exBadStream "read failure" rfl,
    C6_failure_installs_nothing.2.1 "boom", ?_⟩
  exact C6_failure_installs_nothing.2.2 exOkW exStream (by decide)

/-- C7: when the target dataset file already exists at the cache path,
the fetch step makes no network call, writes nothing to the cache
directory, and succeeds immediately; the download-and-extract path runs
only when the target file is absent. -/
theorem C7_fetch_cache_hit (w : WorldState) :
    (w.cacheFileExists = true →
      ensureCacheFile w =
        { networkCalls := 0, cacheWrites := 0, result := Except.ok () }) ∧
    (w.cacheFileExists = false → ensureCacheFile w = downloadAndExtract w) := by
  constructor
  · intro h
    simp [ensureCacheFile, h]
  · intro h
    simp [ensureCacheFile, h]

/-- Witness for C7: with the cache file present, fetch succeeds with
zero network calls and zero writes even though the network is down. -/
theorem C7_fetch_cache_hit_witness :
    ensureCacheFile
      { cacheFileExists := true, net := NetOutcome.netFail "down",
        archiveHasEntry := false } =
      { networkCalls := 0, cacheWrites := 0, result := Except.ok () } :=
  (C7_fetch_cache_hit _).1 rfl

theorem foldl_pickBetter_some (l : List CityRecordW) :
    ∀ b : CityRecordW, ∃ r, l.foldl pickBetter (some b) = some r ∧
      (r = b ∨ r ∈ l) ∧ b.population ≤ r.population ∧
      ∀ x ∈ l, x.population ≤ r.population := by
  induction l with
  | nil => intro b; exact ⟨b, rfl, Or.inl rfl, le_refl _, by simp⟩
  | cons a t ih =>
    intro b
    by_cases h : b.population < a.population
    · obtain ⟨r, hr, hmem, hle, hall⟩ := ih a
      refine ⟨r, ?_, ?_, by omega, ?_⟩
      · simpa [pickBetter, h] using hr
      · rcases hmem with h1 | h1
        · exact Or.inr (by simp [h1])
        · exact Or.inr (by simp [h1])
      · intro x hx
        rcases List.mem_cons.mp hx with h1 | h1
        · subst h1; exact hle
        · exact hall x h1
    · obtain ⟨r, hr, hmem, hle, hall⟩ := ih b
      refine ⟨r, ?_, ?_, hle, ?_⟩
      · simpa [pickBetter, h] using hr
      · exact hmem.imp id (fun hh => List.mem_cons_of_mem a hh)
      · intro x hx
        rcases List.mem_cons.mp hx with h1 | h1
        · subst h1; omega
        · exact hall x h1

theorem foldl_pickBetter_none (l : List CityRecordW) :
    (l = [] ∧ l.foldl pickBetter none = none) ∨
    ∃ r, l.foldl pickBetter none = some r ∧ r ∈ l ∧
      ∀ x ∈ l, x.population ≤ r.population := by
  cases l with
  | nil => exact Or.inl ⟨rfl, rfl⟩
  | cons a t =>
    obtain ⟨r, hr, hmem, hle, hall⟩ := foldl_pickBetter_some t a
    refine Or.inr ⟨r, by simpa [pickBetter] using hr, ?_, ?_⟩
    · rcases hmem with h | h
      · simp [h]
      · simp [h]
    · intro x hx
      rcases List.mem_cons.mp hx with h | h
      · subst h; exact hle
      · exact hall x h

/-- C9 (modelled from the spec, the operation being absent from the
source): findBestForTimezone returns none when the catalog is not ready
or when no record has the given timezone identifier, and otherwise
returns a record whose timezone equals the identifier exactly and whose
population is maximal among all such records. -/
theorem C9_find_best_for_timezone (cat : CatalogW) (tz : List Char) :
    (cat.ready = false → findBestForTimezone cat tz = none) ∧
    (cat.ready = true →
      ((findBestForTimezone cat tz = none ↔
        ∀ r ∈ cat.records, r.timezone ≠ tz) ∧
       (∀ r, findBestForTimezone cat tz = some r →
         r ∈ cat.records ∧ r.timezone = tz ∧
         ∀ x ∈ cat.records, x.timezone = tz → x.population ≤ r.population))) := by
  constructor
  · intro h
    simp [findBestForTimezone, h]
  · intro h
    have hready : findBestForTimezone cat tz =
        (cat.records.filter (fun r => r.timezone == tz)).foldl pickBetter none := by
      simp [findBestForTimezone, h]
    rcases foldl_pickBetter_none (cat.records.filter (fun r => r.timezone == tz)) with
      ⟨hnil, hfold⟩ | ⟨r0, hfold, hmem, hall⟩
    · rw [hready, hfold]
      refine ⟨⟨fun _ r hr htz => ?_, fun _ => rfl⟩, fun r hr => absurd hr (by simp)⟩
      have hm : r ∈ cat.records.filter (fun r => r.timezone == tz) :=
        List.mem_filter.mpr ⟨hr, by simp [htz]⟩
      rw [hnil] at hm
      exact absurd hm (List.not_mem_nil r)
    · rw [hready, hfold]
      have hm0 := List.mem_filter.mp hmem
      have htz0 : r0.timezone = tz := by simpa using hm0.2
      constructor
      · constructor
        · intro hnone
          exact absurd hnone (by simp)
        · intro hall2
          exact absurd htz0 (hall2 r0 hm0.1)
      · intro r hr
        injection hr with hr
        subst hr
        refine ⟨hm0.1, htz0, ?_⟩
        intro x hx htz
        exact hall x (List.mem_filter.mpr ⟨hx, by simp [htz]⟩)

/-- Record examples for the timezone query: two records sharing the
Berlin timezone, with different populations. -/
def exRecA : CityRecordW :=
  { name := "Berlin".toList, countryCode := "DE".toList,
    timezone := "Europe/Berlin".toList, population := 3500000 }

/-- The smaller-population record for the timezone query examples. -/
def exRecB : CityRecordW :=
  { name := "Potsdam".toList, countryCode := "DE".toList,
    timezone := "Europe/Berlin".toList, population := 180000 }

/-- A ready weighted catalog for the timezone query examples. -/
def exCat : CatalogW := { records := [exRecB, exRecA], ready := true }

/-- Witness for C9: on the example catalog the query returns the Berlin
record, a member with the requested timezone, and its population
dominates the other matching record. -/
theorem C9_find_best_for_timezone_witness :
    exRecA ∈ exCat.records ∧ exRecA.timezone = "Europe/Berlin".toList ∧
    exRecB.population ≤ exRecA.population := by
  have h := ((C9_find_best_for_timezone exCat ("Europe/Berlin".toList)).2 rfl).2
    exRecA (by decide)
  exact ⟨h.1, h.2.1, h.2.2 exRecB (by decide) (by decide)⟩

end Worldclock
